import Mathlib

/-
Shallow embedding of src/reloading.py, a hot-reload subsystem:

  - three process-wide tables: reloadable_classes ((module, name) -> class),
    reloadable_modules (module -> (mtime, dir)), dir_fds (dir -> fd);
  - module_source, watch_module, watch_dir (registration path);
  - handle_sigio (asynchronous change-detection pass);
  - two interception implementations: the nested metaclass __new__ of
    Reloadable, and ReloMeta.__new__.

Python objects holding class members live in an explicit heap
(PyState.objects, keyed by object id), so object identity and in-place
mutation (setattr) are observable.  External OS facilities (os.path.abspath,
os.stat, os.open, sys.modules, the reload builtin) are an explicit
environment (Env); a stat or open that raises OSError is a None / false
answer from the environment.  Exceptions are modelled by returning the
mutated state together with an Except value, so mutations performed before
a raise persist, exactly as in Python.
-/

namespace Reloading

/-- Runtime values stored as class-body members. -/
inductive Value where
  | vstr : String → Value
  | vnat : Nat → Value
  | vfun : String → Value
deriving DecidableEq, Repr

/-- A Python class body: the dict passed to the metaclass, including the
mandatory __module__ entry.  Keys are unique in a real dict. -/
abbrev Dict := List (String × Value)

/-- A module object: its name and its __file__ attribute. -/
structure Module where
  name : String
  file : String
deriving DecidableEq, Repr

/-- A class object on the heap: name, base-class object ids and the member
table mutated in place by setattr. -/
structure Obj where
  cname : String
  bases : List Nat
  members : Dict
deriving DecidableEq, Repr

/-- Python exceptions that the embedded code can raise. -/
inductive Err where
  | osError
  | keyError
  | attributeError
deriving DecidableEq, Repr

/-- The external world: path canonicalization, stat (None = OSError),
os.open success, sys.modules, and whether re-evaluating a module raises.
The reload builtin itself is the source-evaluation collaborator and is
modelled as an external event. -/
structure Env where
  abspath : String → String
  mtime : String → Option Nat
  openOk : String → Bool
  sysModules : String → Option Module
  reloadRaises : Module → Bool

/-- The interpreter state: the heap of class objects plus the three
process-wide tables of reloading.py, the fd counter and the SIGIO-handler
installation state. -/
structure PyState where
  nextObjId : Nat
  objects : List (Nat × Obj)
  reloadable_classes : List ((String × String) × Nat)
  reloadable_modules : List (Module × (Nat × String))
  dir_fds : List (String × Nat)
  nextFd : Nat
  sigioInstalled : Bool
  installCount : Nat
deriving DecidableEq, Repr

/-- Lookup in an association list (Python dict read). -/
def getKey [DecidableEq α] (k : α) : List (α × β) → Option β
  | [] => none
  | (k', v) :: rest => if k' = k then some v else getKey k rest

/-- Overwrite-or-append in an association list (Python dict assignment). -/
def setKey [DecidableEq α] (k : α) (v : β) : List (α × β) → List (α × β)
  | [] => [(k, v)]
  | (k', v') :: rest => if k' = k then (k', v) :: rest else (k', v') :: setKey k v rest

/-- Index of the last occurrence of a character, as str.rfind does. -/
def rfindChar (c : Char) (l : List Char) : Option Nat :=
  match List.findIdx? (fun x => x = c) l.reverse with
  | none => none
  | some i => some (l.length - 1 - i)

/-- posixpath.dirname: everything up to the last slash, with trailing
slashes stripped unless the head is all slashes. -/
def os_dirname (p : String) : String :=
  let l := p.toList
  match rfindChar '/' l with
  | none => ""
  | some i =>
    let head := l.take (i + 1)
    if head ≠ [] ∧ ¬ (head.all (fun x => x = '/')) then
      String.mk ((head.reverse.dropWhile (fun x => x = '/')).reverse)
    else
      String.mk head

/-- posixpath.splitext: split off the extension at the last dot, provided
it lies after the last slash and the basename is not all leading dots. -/
def splitext (p : String) : String × String :=
  let l := p.toList
  let sepIndex : Int := match rfindChar '/' l with | none => -1 | some i => (i : Int)
  let dotIndex : Int := match rfindChar '.' l with | none => -1 | some i => (i : Int)
  if sepIndex < dotIndex then
    let filenameIndex := (sepIndex + 1).toNat
    let di := dotIndex.toNat
    if ((l.drop filenameIndex).take (di - filenameIndex)).any (fun x => x ≠ '.') then
      (String.mk (l.take di), String.mk (l.drop di))
    else
      (p, "")
  else
    (p, "")

/-- Python str.endswith: true when the argument equals the tail of the
string. -/
def str_endswith (s suffix : String) : Bool :=
  decide (suffix.toList = s.toList.drop (s.toList.length - suffix.toList.length))

/-- module_source (reloading.py line 25): the source file name of a module,
translating a .pyc / .pyo artifact back to the .py source. -/
def module_source (module : Module) : String :=
  let filename := module.file
  let be := splitext filename
  if be.2 = ".pyc" ∨ be.2 = ".pyo" then be.1 ++ ".py" else filename

/-- watch_dir (reloading.py line 43): watch a directory for changes.
Canonicalize; if already subscribed do nothing; otherwise install the
SIGIO handler if this is the very first subscription, then open the
directory (which may raise) and record the fd. -/
def watch_dir (env : Env) (s : PyState) (dirname : String) : PyState × Except Err Unit :=
  let dirname := env.abspath dirname
  if (getKey dirname s.dir_fds).isSome then
    (s, .ok ())
  else
    let s :=
      if s.dir_fds.isEmpty then
        { s with sigioInstalled := true, installCount := s.installCount + 1 }
      else s
    if env.openOk dirname then
      let fd := s.nextFd
      ({ s with nextFd := s.nextFd + 1, dir_fds := setKey dirname fd s.dir_fds }, .ok ())
    else
      (s, .error .osError)

/-- watch_module (reloading.py line 35): subscribe the module's directory,
then stat the source (which may raise, after the directory subscription
already happened) and record (mtime, dir) in reloadable_modules. -/
def watch_module (env : Env) (s : PyState) (module : Module) : PyState × Except Err Unit :=
  let source := module_source module
  let dirname := os_dirname source
  match watch_dir env s dirname with
  | (s, .error e) => (s, .error e)
  | (s, .ok _) =>
    match env.mtime source with
    | none => (s, .error .osError)
    | some t =>
      ({ s with reloadable_modules := setKey module (t, dirname) s.reloadable_modules }, .ok ())

/-- Result of one SIGIO pass: the final state, the modules passed to the
reload builtin, and those whose re-evaluation raised (traceback printed). -/
structure SigioResult where
  state : PyState
  reloaded : List Module
  tracebacks : List Module
deriving DecidableEq, Repr

/-- One iteration of the handle_sigio loop body for a single entry of
reloadable_modules: stat the source (OSError means skip), and when the
new mtime is strictly newer, first update the stored baseline, then call
reload, catching any exception it raises. -/
def sigio_step (env : Env) (acc : SigioResult) (entry : Module × (Nat × String)) : SigioResult :=
  let m := entry.1
  let mtime := entry.2.1
  let dirname := entry.2.2
  match env.mtime (module_source m) with
  | none => acc
  | some new_mtime =>
    if mtime < new_mtime then
      let st :=
        { acc.state with
            reloadable_modules := setKey m (new_mtime, dirname) acc.state.reloadable_modules }
      if env.reloadRaises m then
        { state := st, reloaded := acc.reloaded ++ [m], tracebacks := acc.tracebacks ++ [m] }
      else
        { state := st, reloaded := acc.reloaded ++ [m], tracebacks := acc.tracebacks }
    else acc

/-- handle_sigio (reloading.py line 54): check timestamps of all watched
modules and reload the changed ones, iterating over the entries of
reloadable_modules. -/
def handle_sigio (env : Env) (s : PyState) : SigioResult :=
  s.reloadable_modules.foldl (sigio_step env) ⟨s, [], []⟩

/-- type.__new__: allocate a fresh class object on the heap from the
evaluated class body and return its id. -/
def type_new (s : PyState) (name : String) (bases : List Nat) (dict : Dict) : PyState × Nat :=
  let oid := s.nextObjId
  ({ s with nextObjId := oid + 1, objects := (oid, ⟨name, bases, dict⟩) :: s.objects }, oid)

/-- setattr on a class object: overwrite one member on the heap object,
in place. -/
def setattr (s : PyState) (oid : Nat) (k : String) (v : Value) : PyState :=
  match getKey oid s.objects with
  | none => s
  | some o =>
    { s with objects := setKey oid { o with members := setKey k v o.members } s.objects }

/-- The nested metaclass __new__ of Reloadable (reloading.py lines 75-97):
self-protection check, then first-sighting registration or member merge
into the previously stored class object. -/
def metaclass_new (env : Env) (s : PyState) (name : String) (bases : List Nat) (dict : Dict) :
    PyState × Except Err Nat :=
  match getKey "__module__" dict with
  | none => (s, .error .keyError)
  | some mv =>
    match mv with
    | .vstr module =>
      if str_endswith module "reloading" && name == "Reloadable" then
        let p := type_new s name bases dict
        (p.1, .ok p.2)
      else
        match getKey (module, name) s.reloadable_classes with
        | none =>
          let p := type_new s name bases dict
          match env.sysModules module with
          | none => (p.1, .error .keyError)
          | some m =>
            match watch_module env p.1 m with
            | (s, .error e) => (s, .error e)
            | (s, .ok _) =>
              ({ s with reloadable_classes := setKey (module, name) p.2 s.reloadable_classes },
               .ok p.2)
        | some old_class =>
          let s := dict.foldl (fun st kv => setattr st old_class kv.1 kv.2) s
          (s, .ok old_class)
    | _ => (s, .error .attributeError)

/-- ReloMeta.__new__ (reloading.py lines 103-125): the alternate-base
implementation of the same interception logic, translated separately. -/
def relo_meta_new (env : Env) (s : PyState) (name : String) (bases : List Nat) (dict : Dict) :
    PyState × Except Err Nat :=
  match getKey "__module__" dict with
  | none => (s, .error .keyError)
  | some mv =>
    match mv with
    | .vstr module =>
      if str_endswith module "reloading" && name == "Reloadable" then
        let p := type_new s name bases dict
        (p.1, .ok p.2)
      else
        match getKey (module, name) s.reloadable_classes with
        | none =>
          let p := type_new s name bases dict
          match env.sysModules module with
          | none => (p.1, .error .keyError)
          | some m =>
            match watch_module env p.1 m with
            | (s, .error e) => (s, .error e)
            | (s, .ok _) =>
              ({ s with reloadable_classes := setKey (module, name) p.2 s.reloadable_classes },
               .ok p.2)
        | some old_class =>
          let s := dict.foldl (fun st kv => setattr st old_class kv.1 kv.2) s
          (s, .ok old_class)
    | _ => (s, .error .attributeError)


/-- The new (mtime, dir) value of one reloadable_modules entry after a
SIGIO pass: the baseline advances exactly when the stat succeeds with a
strictly newer mtime. -/
def entryValue (env : Env) (m : Module) (td : Nat × String) : Nat × String :=
  match env.mtime (module_source m) with
  | none => td
  | some n => if td.1 < n then (n, td.2) else td

/-- One reloadable_modules entry after a SIGIO pass. -/
def entry_after (env : Env) (e : Module × (Nat × String)) : Module × (Nat × String) :=
  (e.1, entryValue env e.1 e.2)

/-- Whether a SIGIO pass re-evaluates this entry: the stat succeeds and
the current mtime is strictly greater than the stored baseline. -/
def entry_reloads (env : Env) (e : Module × (Nat × String)) : Bool :=
  match env.mtime (module_source e.1) with
  | none => false
  | some n => decide (e.2.1 < n)

/-- A concrete environment for evaluating the theorems: every stat
answers mtime 7 and every open succeeds. -/
def envStat7 : Env where
  abspath := fun d => d
  mtime := fun _ => some 7
  openOk := fun _ => true
  sysModules := fun n => some ⟨n, "/src/" ++ n ++ ".py"⟩
  reloadRaises := fun _ => false

/-- A concrete environment in which every stat raises OSError. -/
def envStatNone : Env where
  abspath := fun d => d
  mtime := fun _ => none
  openOk := fun _ => true
  sysModules := fun n => some ⟨n, "/src/" ++ n ++ ".py"⟩
  reloadRaises := fun _ => false

/-- A concrete initial state with empty tables. -/
def emptyState : PyState where
  nextObjId := 0
  objects := []
  reloadable_classes := []
  reloadable_modules := []
  dir_fds := []
  nextFd := 3
  sigioInstalled := false
  installCount := 0

/-- A concrete class object with two members. -/
def sampleObj : Obj where
  cname := "Foo"
  bases := []
  members := [("a", Value.vnat 1), ("b", Value.vnat 2)]

/-- A concrete class body for a redefinition of Foo: member a overwritten,
member c added, member b absent. -/
def sampleDict : Dict :=
  [("__module__", Value.vstr "m"), ("a", Value.vnat 10), ("c", Value.vnat 3)]

/-- A concrete module object. -/
def sampleModule : Module where
  name := "m"
  file := "/src/m.py"

/-- A concrete state in which class (m, Foo) is registered as object 0 and
module m is watched with baseline mtime 5. -/
def regState : PyState where
  nextObjId := 1
  objects := [(0, sampleObj)]
  reloadable_classes := [(("m", "Foo"), 0)]
  reloadable_modules := [(sampleModule, (5, "/src"))]
  dir_fds := [("/src", 9)]
  nextFd := 10
  sigioInstalled := true
  installCount := 1

/-! Association-list lemmas. -/

theorem getKey_setKey [DecidableEq α] (k k' : α) (v : β) (l : List (α × β)) :
    getKey k' (setKey k v l) = if k = k' then some v else getKey k' l := by
  induction l with
  | nil => simp [getKey, setKey]
  | cons hd tl ih =>
    obtain ⟨k₀, v₀⟩ := hd
    by_cases h₀ : k₀ = k
    · subst h₀
      by_cases h₁ : k₀ = k'
      · subst h₁; simp [getKey, setKey]
      · have h₁' : ¬ k₀ = k' := h₁
        simp [getKey, setKey, h₁']
    · have h₀' : ¬ k = k₀ := fun hh => h₀ hh.symm
      by_cases h₁ : k₀ = k'
      · subst h₁
        simp [getKey, setKey, h₀, h₀']
      · simp [getKey, setKey, h₀, h₁, ih]

theorem setKey_of_getKey_none [DecidableEq α] (k : α) (v : β) (l : List (α × β))
    (h : getKey k l = none) : setKey k v l = l ++ [(k, v)] := by
  induction l with
  | nil => simp [setKey]
  | cons hd tl ih =>
    obtain ⟨k₀, v₀⟩ := hd
    by_cases h₀ : k₀ = k
    · subst h₀; simp [getKey] at h
    · simp only [getKey, if_neg h₀] at h
      simp [setKey, h₀, ih h]

theorem setKey_self [DecidableEq α] (k : α) (v : β) (l : List (α × β))
    (h : getKey k l = some v) : setKey k v l = l := by
  induction l with
  | nil => simp [getKey] at h
  | cons hd tl ih =>
    obtain ⟨k₀, v₀⟩ := hd
    by_cases h₀ : k₀ = k
    · subst h₀
      simp [getKey] at h
      simp [setKey, h]
    · simp only [getKey, if_neg h₀] at h
      simp [setKey, h₀, ih h]

theorem setKey_setKey_same [DecidableEq α] (k : α) (v v' : β) (l : List (α × β)) :
    setKey k v' (setKey k v l) = setKey k v' l := by
  induction l with
  | nil => simp [setKey]
  | cons hd tl ih =>
    obtain ⟨k₀, v₀⟩ := hd
    by_cases h₀ : k₀ = k
    · subst h₀; simp [setKey]
    · simp [setKey, h₀, ih]

theorem length_setKey_isSome [DecidableEq α] (k : α) (v : β) (l : List (α × β))
    (h : (getKey k l).isSome) : (setKey k v l).length = l.length := by
  induction l with
  | nil => simp [getKey] at h
  | cons hd tl ih =>
    obtain ⟨k₀, v₀⟩ := hd
    by_cases h₀ : k₀ = k
    · subst h₀; simp [setKey]
    · simp only [getKey, if_neg h₀] at h
      simp [setKey, h₀, ih h]

theorem length_setKey_none [DecidableEq α] (k : α) (v : β) (l : List (α × β))
    (h : getKey k l = none) : (setKey k v l).length = l.length + 1 := by
  rw [setKey_of_getKey_none k v l h]
  simp

theorem getKey_eq_none_of_not_mem [DecidableEq α] (k : α) (l : List (α × β))
    (h : k ∉ l.map Prod.fst) : getKey k l = none := by
  induction l with
  | nil => simp [getKey]
  | cons hd tl ih =>
    obtain ⟨k₀, v₀⟩ := hd
    simp only [List.map_cons, List.mem_cons, not_or] at h
    have h₀ : ¬ k₀ = k := fun hh => h.1 hh.symm
    simp [getKey, h₀, ih h.2]

theorem mem_of_getKey_eq_some [DecidableEq α] {k : α} {v : β} {l : List (α × β)}
    (h : getKey k l = some v) : (k, v) ∈ l := by
  induction l with
  | nil => simp [getKey] at h
  | cons hd tl ih =>
    obtain ⟨k₀, v₀⟩ := hd
    by_cases h₀ : k₀ = k
    · subst h₀
      simp [getKey] at h
      simp [h]
    · simp only [getKey, if_neg h₀] at h
      simp [ih h]

theorem getKey_eq_some_of_mem_nodup [DecidableEq α] {k : α} {v : β} {l : List (α × β)}
    (hnd : (l.map Prod.fst).Nodup) (h : (k, v) ∈ l) : getKey k l = some v := by
  induction l with
  | nil => simp at h
  | cons hd tl ih =>
    obtain ⟨k₀, v₀⟩ := hd
    simp only [List.map_cons, List.nodup_cons] at hnd
    rcases List.mem_cons.mp h with h' | h'
    · rw [Prod.mk.injEq] at h'
      simp [getKey, h'.1, h'.2]
    · have hk : ¬ k₀ = k := by
        intro hk; subst hk
        exact hnd.1 (by simpa using List.mem_map_of_mem Prod.fst h')
      simp [getKey, hk, ih hnd.2 h']

theorem setKey_append_middle [DecidableEq α] (k : α) (v w : β) (l₁ l₂ : List (α × β))
    (h : k ∉ l₁.map Prod.fst) : setKey k v (l₁ ++ (k, w) :: l₂) = l₁ ++ (k, v) :: l₂ := by
  induction l₁ with
  | nil => simp [setKey]
  | cons hd tl ih =>
    obtain ⟨k₀, v₀⟩ := hd
    simp only [List.map_cons, List.mem_cons, not_or] at h
    have h₀ : ¬ k₀ = k := fun hh => h.1 hh.symm
    simp [setKey, h₀, ih h.2]

theorem getKey_foldl_setKey_of_none [DecidableEq α] (dict : List (α × β)) (k : α)
    (h : getKey k dict = none) (m₀ : List (α × β)) :
    getKey k (dict.foldl (fun m kv => setKey kv.1 kv.2 m) m₀) = getKey k m₀ := by
  induction dict generalizing m₀ with
  | nil => simp
  | cons hd tl ih =>
    obtain ⟨k₀, v₀⟩ := hd
    by_cases h₀ : k₀ = k
    · subst h₀; simp [getKey] at h
    · simp only [getKey, if_neg h₀] at h
      simp only [List.foldl_cons]
      rw [ih h, getKey_setKey]
      have h₀' : ¬ k₀ = k := h₀
      simp [h₀']

theorem getKey_foldl_setKey_of_mem [DecidableEq α] (dict : List (α × β)) (k : α) (v : β)
    (hnd : (dict.map Prod.fst).Nodup) (h : getKey k dict = some v) (m₀ : List (α × β)) :
    getKey k (dict.foldl (fun m kv => setKey kv.1 kv.2 m) m₀) = some v := by
  induction dict generalizing m₀ with
  | nil => simp [getKey] at h
  | cons hd tl ih =>
    obtain ⟨k₀, v₀⟩ := hd
    simp only [List.map_cons, List.nodup_cons] at hnd
    by_cases h₀ : k₀ = k
    · subst h₀
      simp [getKey] at h
      subst h
      have htl : getKey k₀ tl = none := getKey_eq_none_of_not_mem k₀ tl hnd.1
      simp only [List.foldl_cons]
      rw [getKey_foldl_setKey_of_none tl k₀ htl, getKey_setKey]
      simp
    · simp only [getKey, if_neg h₀] at h
      simp only [List.foldl_cons]
      exact ih hnd.2 h _

/-! Characterization of the member merge and of the SIGIO pass. -/

theorem foldl_setattr (dict : Dict) : ∀ (s : PyState) (oid : Nat) (o : Obj),
    getKey oid s.objects = some o →
    dict.foldl (fun st kv => setattr st oid kv.1 kv.2) s =
      { s with objects :=
          (setKey oid ({ o with members := dict.foldl (fun m kv => setKey kv.1 kv.2 m) o.members })
            s.objects) } := by
  induction dict with
  | nil =>
    intro s oid o h
    simp only [List.foldl_nil]
    have he : ({ o with members := o.members } : Obj) = o := rfl
    rw [he, setKey_self oid o s.objects h]
  | cons hd tl ih =>
    intro s oid o h
    obtain ⟨k, v⟩ := hd
    simp only [List.foldl_cons]
    have hset : setattr s oid k v =
        { s with objects := setKey oid { o with members := setKey k v o.members } s.objects } := by
      simp [setattr, h]
    rw [hset]
    rw [ih _ oid { o with members := setKey k v o.members } (by rw [getKey_setKey]; simp)]
    simp [setKey_setKey_same]

theorem setattr_reloadable_classes (s : PyState) (oid : Nat) (k : String) (v : Value) :
    (setattr s oid k v).reloadable_classes = s.reloadable_classes := by
  unfold setattr
  split <;> rfl

theorem foldl_setattr_reloadable_classes (dict : Dict) : ∀ (s : PyState) (oid : Nat),
    (dict.foldl (fun st kv => setattr st oid kv.1 kv.2) s).reloadable_classes =
      s.reloadable_classes := by
  induction dict with
  | nil => intro s oid; rfl
  | cons hd tl ih =>
    intro s oid
    simp only [List.foldl_cons]
    rw [ih, setattr_reloadable_classes]

theorem entry_reloads_entry_after (env : Env) (e : Module × (Nat × String)) :
    entry_reloads env (entry_after env e) = false := by
  obtain ⟨m, t, d⟩ := e
  unfold entry_reloads entry_after entryValue
  cases h : env.mtime (module_source m) with
  | none => simp
  | some n =>
    by_cases hlt : t < n <;> simp [hlt]

theorem map_fst_map_entry_after (env : Env) (l : List (Module × (Nat × String))) :
    (l.map (entry_after env)).map Prod.fst = l.map Prod.fst := by
  induction l with
  | nil => rfl
  | cons e l ih => simp [entry_after, ih]

theorem getKey_map_keyed [DecidableEq α] (g : α → β → γ) (l : List (α × β)) (k : α) :
    getKey k (l.map (fun e => (e.1, g e.1 e.2))) = (getKey k l).map (g k) := by
  induction l with
  | nil => simp [getKey]
  | cons e l ih =>
    obtain ⟨k₀, v₀⟩ := e
    by_cases h : k₀ = k
    · subst h; simp [getKey]
    · simp [getKey, h, ih]

theorem sigio_foldl_spec (env : Env) (l : List (Module × (Nat × String))) :
    ∀ (pre : List (Module × (Nat × String))) (s : PyState) (rel tbs : List Module),
    s.reloadable_modules = pre ++ l →
    ((pre ++ l).map Prod.fst).Nodup →
    l.foldl (sigio_step env) ⟨s, rel, tbs⟩ =
      ⟨{ s with reloadable_modules := pre ++ l.map (entry_after env) },
       rel ++ (l.filter (entry_reloads env)).map Prod.fst,
       tbs ++ ((l.filter (entry_reloads env)).map Prod.fst).filter env.reloadRaises⟩ := by
  induction l with
  | nil =>
    intro pre s rel tbs hs hnd
    simp only [List.foldl_nil, List.map_nil, List.filter_nil, List.append_nil]
    rw [List.append_nil] at hs
    rw [← hs]
  | cons e l ih =>
    intro pre s rel tbs hs hnd
    obtain ⟨m, t, d⟩ := e
    have hm_pre : m ∉ pre.map Prod.fst := by
      rw [List.map_append] at hnd
      rcases List.nodup_append.mp hnd with ⟨-, -, hdisj⟩
      intro hmem
      exact hdisj hmem (by simp)
    simp only [List.foldl_cons]
    cases hmt : env.mtime (module_source m) with
    | none =>
      have hstep : sigio_step env ⟨s, rel, tbs⟩ (m, (t, d)) = ⟨s, rel, tbs⟩ := by
        simp [sigio_step, hmt]
      rw [hstep]
      have hs' : s.reloadable_modules = (pre ++ [(m, (t, d))]) ++ l := by
        rw [hs]; simp
      have hnd' : (((pre ++ [(m, (t, d))]) ++ l).map Prod.fst).Nodup := by
        simpa using hnd
      rw [ih (pre ++ [(m, (t, d))]) s rel tbs hs' hnd']
      have hval : entry_after env (m, (t, d)) = (m, (t, d)) := by
        simp [entry_after, entryValue, hmt]
      have hrel : entry_reloads env (m, (t, d)) = false := by
        simp [entry_reloads, hmt]
      simp [hval, hrel]
    | some n =>
      by_cases hlt : t < n
      · have hmods : setKey m (n, d) s.reloadable_modules = pre ++ (m, (n, d)) :: l := by
          rw [hs]
          exact setKey_append_middle m (n, d) (t, d) pre l hm_pre
        have hval : entry_after env (m, (t, d)) = (m, (n, d)) := by
          simp [entry_after, entryValue, hmt, hlt]
        have hrel : entry_reloads env (m, (t, d)) = true := by
          simp [entry_reloads, hmt, hlt]
        have hs' : ({ s with reloadable_modules := pre ++ (m, (n, d)) :: l } :
            PyState).reloadable_modules = (pre ++ [(m, (n, d))]) ++ l := by
          simp
        have hnd' : (((pre ++ [(m, (n, d))]) ++ l).map Prod.fst).Nodup := by
          simpa using hnd
        cases hr : env.reloadRaises m with
        | false =>
          have hstep : sigio_step env ⟨s, rel, tbs⟩ (m, (t, d)) =
              ⟨{ s with reloadable_modules := pre ++ (m, (n, d)) :: l },
               rel ++ [m], tbs⟩ := by
            simp [sigio_step, hmt, hlt, hr, hmods]
          rw [hstep,
            ih (pre ++ [(m, (n, d))]) _ (rel ++ [m]) tbs hs' hnd']
          simp [hval, hrel, hr]
        | true =>
          have hstep : sigio_step env ⟨s, rel, tbs⟩ (m, (t, d)) =
              ⟨{ s with reloadable_modules := pre ++ (m, (n, d)) :: l },
               rel ++ [m], tbs ++ [m]⟩ := by
            simp [sigio_step, hmt, hlt, hr, hmods]
          rw [hstep,
            ih (pre ++ [(m, (n, d))]) _ (rel ++ [m]) (tbs ++ [m]) hs' hnd']
          simp [hval, hrel, hr]
      · have hstep : sigio_step env ⟨s, rel, tbs⟩ (m, (t, d)) = ⟨s, rel, tbs⟩ := by
          simp [sigio_step, hmt, hlt]
        rw [hstep]
        have hs' : s.reloadable_modules = (pre ++ [(m, (t, d))]) ++ l := by
          rw [hs]; simp
        have hnd' : (((pre ++ [(m, (t, d))]) ++ l).map Prod.fst).Nodup := by
          simpa using hnd
        rw [ih (pre ++ [(m, (t, d))]) s rel tbs hs' hnd']
        have hval : entry_after env (m, (t, d)) = (m, (t, d)) := by
          simp [entry_after, entryValue, hmt, hlt]
        have hrel : entry_reloads env (m, (t, d)) = false := by
          simp [entry_reloads, hmt, hlt]
        simp [hval, hrel]

theorem handle_sigio_spec (env : Env) (s : PyState)
    (hnd : (s.reloadable_modules.map Prod.fst).Nodup) :
    handle_sigio env s =
      ⟨{ s with reloadable_modules := s.reloadable_modules.map (entry_after env) },
       (s.reloadable_modules.filter (entry_reloads env)).map Prod.fst,
       ((s.reloadable_modules.filter (entry_reloads env)).map Prod.fst).filter
         env.reloadRaises⟩ := by
  have h := sigio_foldl_spec env s.reloadable_modules [] s [] [] (by simp) (by simpa using hnd)
  simpa [handle_sigio] using h

/-! Observational lemmas about the registration path. -/

theorem watch_dir_preserves (env : Env) (s : PyState) (d : String) :
    (watch_dir env s d).1.reloadable_classes = s.reloadable_classes ∧
    (watch_dir env s d).1.reloadable_modules = s.reloadable_modules ∧
    (watch_dir env s d).1.objects = s.objects ∧
    (watch_dir env s d).1.nextObjId = s.nextObjId := by
  by_cases h1 : (getKey (env.abspath d) s.dir_fds).isSome
  · simp [watch_dir, h1]
  · by_cases h2 : s.dir_fds.isEmpty <;> by_cases h3 : env.openOk (env.abspath d) <;>
      simp [watch_dir, h1, h2, h3]

theorem watch_dir_ok_obs (env : Env) (s : PyState) (d : String)
    (h : (getKey (env.abspath d) s.dir_fds).isSome ∨ env.openOk (env.abspath d) = true) :
    (watch_dir env s d).2 = .ok () ∧
    (getKey (env.abspath d) (watch_dir env s d).1.dir_fds).isSome ∧
    ((getKey (env.abspath d) s.dir_fds).isSome → (watch_dir env s d).1 = s) ∧
    (getKey (env.abspath d) s.dir_fds = none →
      (watch_dir env s d).1.dir_fds.length = s.dir_fds.length + 1) ∧
    (s.dir_fds = [] → (watch_dir env s d).1.sigioInstalled = true ∧
      (watch_dir env s d).1.installCount = s.installCount + 1) := by
  by_cases h1 : (getKey (env.abspath d) s.dir_fds).isSome
  · refine ⟨by simp [watch_dir, h1], by simp [watch_dir, h1], fun _ => by simp [watch_dir, h1],
      fun hn => ?_, fun hemp => ?_⟩
    · rw [hn] at h1; simp at h1
    · rw [hemp] at h1; simp [getKey] at h1
  · have h3 : env.openOk (env.abspath d) = true := by
      rcases h with h | h
      · exact absurd h h1
      · exact h
    have hn : getKey (env.abspath d) s.dir_fds = none := by
      cases hg : getKey (env.abspath d) s.dir_fds with
      | none => rfl
      | some x => rw [hg] at h1; simp at h1
    by_cases h2 : s.dir_fds.isEmpty
    · refine ⟨by simp [watch_dir, h1, h2, h3], ?_, fun hs => absurd hs h1, fun _ => ?_, fun _ => ?_⟩
      · simp [watch_dir, h1, h2, h3, getKey_setKey]
      · simp [watch_dir, h1, h2, h3, length_setKey_none _ _ _ hn]
      · simp [watch_dir, h1, h2, h3]
    · refine ⟨by simp [watch_dir, h1, h2, h3], ?_, fun hs => absurd hs h1, fun _ => ?_, fun hemp => ?_⟩
      · simp [watch_dir, h1, h2, h3, getKey_setKey]
      · simp [watch_dir, h1, h2, h3, length_setKey_none _ _ _ hn]
      · rw [hemp] at h2; simp at h2

theorem watch_module_ok_eq (env : Env) (s : PyState) (m : Module) (t : Nat)
    (hstat : env.mtime (module_source m) = some t)
    (hdir : (getKey (env.abspath (os_dirname (module_source m))) s.dir_fds).isSome ∨
      env.openOk (env.abspath (os_dirname (module_source m))) = true) :
    watch_module env s m =
      ({ (watch_dir env s (os_dirname (module_source m))).1 with
          reloadable_modules :=
            (setKey m (t, os_dirname (module_source m))
              (watch_dir env s (os_dirname (module_source m))).1.reloadable_modules) },
       .ok ()) := by
  have hok := (watch_dir_ok_obs env s (os_dirname (module_source m)) hdir).1
  have hpair : watch_dir env s (os_dirname (module_source m)) =
      ((watch_dir env s (os_dirname (module_source m))).1, .ok ()) := by
    rw [← hok]
  simp only [watch_module]
  rw [hpair]
  simp [hstat]

theorem watch_module_statfail_eq (env : Env) (s : PyState) (m : Module)
    (hstat : env.mtime (module_source m) = none)
    (hdir : (getKey (env.abspath (os_dirname (module_source m))) s.dir_fds).isSome ∨
      env.openOk (env.abspath (os_dirname (module_source m))) = true) :
    watch_module env s m =
      ((watch_dir env s (os_dirname (module_source m))).1, .error .osError) := by
  have hok := (watch_dir_ok_obs env s (os_dirname (module_source m)) hdir).1
  have hpair : watch_dir env s (os_dirname (module_source m)) =
      ((watch_dir env s (os_dirname (module_source m))).1, .ok ()) := by
    rw [← hok]
  simp only [watch_module]
  rw [hpair]
  simp [hstat]

theorem watch_module_preserves (env : Env) (s : PyState) (m : Module) :
    (watch_module env s m).1.reloadable_classes = s.reloadable_classes ∧
    (watch_module env s m).1.objects = s.objects ∧
    (watch_module env s m).1.nextObjId = s.nextObjId := by
  have hp := watch_dir_preserves env s (os_dirname (module_source m))
  rcases hw : watch_dir env s (os_dirname (module_source m)) with ⟨s1, r⟩
  rw [hw] at hp
  simp only [watch_module]
  rw [hw]
  cases r with
  | error e => exact ⟨hp.1, hp.2.2.1, hp.2.2.2⟩
  | ok u =>
    cases hmt : env.mtime (module_source m) with
    | none => exact ⟨hp.1, hp.2.2.1, hp.2.2.2⟩
    | some t => exact ⟨hp.1, hp.2.2.1, hp.2.2.2⟩

theorem sigio_step_preserves (env : Env) (acc : SigioResult) (e : Module × (Nat × String)) :
    (sigio_step env acc e).state.reloadable_classes = acc.state.reloadable_classes ∧
    (sigio_step env acc e).state.objects = acc.state.objects ∧
    (sigio_step env acc e).state.dir_fds = acc.state.dir_fds := by
  obtain ⟨m, t, d⟩ := e
  cases hmt : env.mtime (module_source m) with
  | none => simp [sigio_step, hmt]
  | some n =>
    by_cases hlt : t < n
    · cases hr : env.reloadRaises m with
      | false => simp [sigio_step, hmt, hlt, hr]
      | true => simp [sigio_step, hmt, hlt, hr]
    · simp [sigio_step, hmt, hlt]

theorem handle_sigio_preserves (env : Env) (s : PyState) :
    (handle_sigio env s).state.reloadable_classes = s.reloadable_classes ∧
    (handle_sigio env s).state.objects = s.objects ∧
    (handle_sigio env s).state.dir_fds = s.dir_fds := by
  suffices h : ∀ (l : List (Module × (Nat × String))) (acc : SigioResult),
      (l.foldl (sigio_step env) acc).state.reloadable_classes = acc.state.reloadable_classes ∧
      (l.foldl (sigio_step env) acc).state.objects = acc.state.objects ∧
      (l.foldl (sigio_step env) acc).state.dir_fds = acc.state.dir_fds by
    exact h s.reloadable_modules ⟨s, [], []⟩
  intro l
  induction l with
  | nil => intro acc; exact ⟨rfl, rfl, rfl⟩
  | cons e l ih =>
    intro acc
    simp only [List.foldl_cons]
    have h1 := ih (sigio_step env acc e)
    have h2 := sigio_step_preserves env acc e
    exact ⟨h1.1.trans h2.1, h1.2.1.trans h2.2.1, h1.2.2.trans h2.2.2⟩

theorem not_mem_reloaded_of_false (env : Env) {l : List (Module × (Nat × String))}
    (hnd : (l.map Prod.fst).Nodup) {m : Module} {td : Nat × String}
    (hget : getKey m l = some td) (hfalse : entry_reloads env (m, td) = false) :
    m ∉ (l.filter (entry_reloads env)).map Prod.fst := by
  intro hmem
  obtain ⟨e, hef, hfst⟩ := List.mem_map.mp hmem
  have hel : e ∈ l := List.mem_of_mem_filter hef
  have her : entry_reloads env e = true := List.of_mem_filter hef
  have heq : getKey e.1 l = some e.2 := by
    have : (e.1, e.2) ∈ l := by simpa using hel
    exact getKey_eq_some_of_mem_nodup hnd this
  rw [hfst, hget] at heq
  have he : e = (m, td) := by
    obtain ⟨e1, e2⟩ := e
    simp at hfst heq
    simp [hfst, heq]
  rw [he, hfalse] at her
  exact Bool.false_ne_true her

/-! Further helper lemmas. -/

theorem relo_meta_new_eq (env : Env) (s : PyState) (name : String) (bases : List Nat)
    (dict : Dict) : relo_meta_new env s name bases dict = metaclass_new env s name bases dict :=
  rfl

theorem getKey_map_entry_after (env : Env) (l : List (Module × (Nat × String))) (m : Module) :
    getKey m (l.map (entry_after env)) = (getKey m l).map (entryValue env m) := by
  have h : l.map (entry_after env) = l.map (fun e => (e.1, entryValue env e.1 e.2)) := rfl
  rw [h, getKey_map_keyed]

/-! The claims. -/

/-- C9: the two interception implementations are behaviorally identical: for
every input (name, bases, dict) and every registry state, the nested
metaclass __new__ of Reloadable and ReloMeta.__new__ return the same class
object and perform the same state updates. -/
theorem interception_implementations_equal :
    ∀ (env : Env) (s : PyState) (name : String) (bases : List Nat) (dict : Dict),
      metaclass_new env s name bases dict = relo_meta_new env s name bases dict := by
  intro env s name bases dict
  exact (relo_meta_new_eq env s name bases dict).symm

/-- C4: a class definition whose module name ends with "reloading" and whose
type name is "Reloadable" is constructed by plain type construction and
returned immediately: no class-identity entry, no watched module or
directory, no handler install, and no merge, even though it runs the same
interception code path. -/
theorem bootstrap_self_exclusion
    (env : Env) (s : PyState) (name module : String) (bases : List Nat) (dict : Dict)
    (hmod : getKey "__module__" dict = some (Value.vstr module))
    (hself : (str_endswith module "reloading" && name == "Reloadable") = true) :
    metaclass_new env s name bases dict =
      ({ s with nextObjId := s.nextObjId + 1,
                objects := (s.nextObjId, ⟨name, bases, dict⟩) :: s.objects },
       .ok s.nextObjId) ∧
    (metaclass_new env s name bases dict).1.reloadable_classes = s.reloadable_classes ∧
    (metaclass_new env s name bases dict).1.reloadable_modules = s.reloadable_modules ∧
    (metaclass_new env s name bases dict).1.dir_fds = s.dir_fds ∧
    (metaclass_new env s name bases dict).1.sigioInstalled = s.sigioInstalled ∧
    (metaclass_new env s name bases dict).1.installCount = s.installCount := by
  refine ⟨?_, ?_, ?_, ?_, ?_, ?_⟩ <;> simp [metaclass_new, hmod, hself, type_new]

theorem bootstrap_self_exclusion_witness :
    (getKey "__module__" [("__module__", Value.vstr "reloading")] =
      some (Value.vstr "reloading")) ∧
    ((str_endswith "reloading" "reloading" && "Reloadable" == "Reloadable") = true) ∧
    metaclass_new envStat7 emptyState "Reloadable" [] [("__module__", Value.vstr "reloading")] =
      ({ emptyState with
          nextObjId := emptyState.nextObjId + 1,
          objects := (emptyState.nextObjId,
            ⟨"Reloadable", [], [("__module__", Value.vstr "reloading")]⟩) ::
              emptyState.objects },
       .ok emptyState.nextObjId) :=
  ⟨by decide, by decide,
    (bootstrap_self_exclusion envStat7 emptyState "Reloadable" "reloading" []
      [("__module__", Value.vstr "reloading")] (by decide) (by decide)).1⟩

/-- C8: directory watching is idempotent: a second watch_dir call with the
same path leaves the subscription table unchanged, opens no second handle
and installs no second handler; the SIGIO handler is installed only on the
very first subscription, when the table is still empty. -/
theorem watch_dir_idempotent
    (env : Env) (s : PyState) (d : String)
    (hok : (watch_dir env s d).2 = .ok ()) :
    watch_dir env (watch_dir env s d).1 d = ((watch_dir env s d).1, .ok ()) ∧
    (watch_dir env s d).1.nextFd ≤ s.nextFd + 1 ∧
    (watch_dir env s d).1.dir_fds.length ≤ s.dir_fds.length + 1 ∧
    (s.dir_fds = [] → (watch_dir env s d).1.installCount = s.installCount + 1) ∧
    (s.dir_fds ≠ [] → (watch_dir env s d).1.installCount = s.installCount) ∧
    ((getKey (env.abspath d) s.dir_fds).isSome → (watch_dir env s d).1 = s) := by
  by_cases h1 : (getKey (env.abspath d) s.dir_fds).isSome
  · have he : watch_dir env s d = (s, .ok ()) := by simp [watch_dir, h1]
    rw [he]
    refine ⟨by simp [watch_dir, h1], Nat.le_succ _, Nat.le_succ _, ?_, fun _ => rfl,
      fun _ => rfl⟩
    intro hemp
    rw [hemp] at h1
    simp [getKey] at h1
  · have hn : getKey (env.abspath d) s.dir_fds = none := by
      cases hg : getKey (env.abspath d) s.dir_fds with
      | none => rfl
      | some x => rw [hg] at h1; simp at h1
    by_cases h3 : env.openOk (env.abspath d)
    · by_cases h2 : s.dir_fds.isEmpty
      · have hemp : s.dir_fds = [] := by simpa using h2
        have he : watch_dir env s d =
            ({ s with sigioInstalled := true, installCount := s.installCount + 1,
                      nextFd := s.nextFd + 1,
                      dir_fds := setKey (env.abspath d) s.nextFd s.dir_fds }, .ok ()) := by
          simp [watch_dir, h1, h2, h3]
        rw [he]
        refine ⟨?_, le_refl _, ?_, fun _ => rfl, fun hne => absurd hemp hne,
          fun hs => absurd hs h1⟩
        · simp [watch_dir, getKey_setKey]
        · rw [hemp]
          simp [setKey]
      · have hne : s.dir_fds ≠ [] := by simpa using h2
        have he : watch_dir env s d =
            ({ s with nextFd := s.nextFd + 1,
                      dir_fds := setKey (env.abspath d) s.nextFd s.dir_fds }, .ok ()) := by
          simp [watch_dir, h1, h2, h3]
        rw [he]
        refine ⟨?_, le_refl _, ?_, fun hemp => absurd hemp hne, fun _ => rfl,
          fun hs => absurd hs h1⟩
        · simp [watch_dir, getKey_setKey]
        · rw [length_setKey_none _ _ _ hn]
    · exfalso
      by_cases h2 : s.dir_fds.isEmpty <;> simp [watch_dir, h1, h2, h3] at hok

theorem watch_dir_idempotent_witness :
    ((watch_dir envStat7 emptyState "/src").2 = .ok ()) ∧
    (watch_dir envStat7 (watch_dir envStat7 emptyState "/src").1 "/src" =
      ((watch_dir envStat7 emptyState "/src").1, .ok ()) ∧
    (watch_dir envStat7 emptyState "/src").1.nextFd ≤ emptyState.nextFd + 1 ∧
    (watch_dir envStat7 emptyState "/src").1.dir_fds.length ≤ emptyState.dir_fds.length + 1 ∧
    (emptyState.dir_fds = [] →
      (watch_dir envStat7 emptyState "/src").1.installCount = emptyState.installCount + 1) ∧
    (emptyState.dir_fds ≠ [] →
      (watch_dir envStat7 emptyState "/src").1.installCount = emptyState.installCount) ∧
    ((getKey (envStat7.abspath "/src") emptyState.dir_fds).isSome →
      (watch_dir envStat7 emptyState "/src").1 = emptyState)) :=
  ⟨rfl, watch_dir_idempotent envStat7 emptyState "/src" rfl⟩

/-- C10: registering a module is not atomic on failure: when the stat of the
source raises, the OSError propagates and reloadable_modules is not
updated, but the directory subscription (and, on the very first
subscription, the SIGIO handler installation) performed earlier in the
same call persists. -/
theorem watch_module_statfail_persists
    (env : Env) (s : PyState) (m : Module)
    (hstat : env.mtime (module_source m) = none)
    (hdir : (getKey (env.abspath (os_dirname (module_source m))) s.dir_fds).isSome ∨
      env.openOk (env.abspath (os_dirname (module_source m))) = true) :
    (watch_module env s m).2 = .error .osError ∧
    (watch_module env s m).1.reloadable_modules = s.reloadable_modules ∧
    (getKey (env.abspath (os_dirname (module_source m)))
      (watch_module env s m).1.dir_fds).isSome ∧
    (s.dir_fds = [] → (watch_module env s m).1.sigioInstalled = true ∧
      (watch_module env s m).1.installCount = s.installCount + 1) := by
  have he := watch_module_statfail_eq env s m hstat hdir
  have hobs := watch_dir_ok_obs env s (os_dirname (module_source m)) hdir
  have hp := watch_dir_preserves env s (os_dirname (module_source m))
  rw [he]
  exact ⟨rfl, hp.2.1, hobs.2.1, hobs.2.2.2.2⟩

theorem watch_module_statfail_persists_witness :
    (envStatNone.mtime (module_source sampleModule) = none) ∧
    ((getKey (envStatNone.abspath (os_dirname (module_source sampleModule)))
        emptyState.dir_fds).isSome ∨
      envStatNone.openOk (envStatNone.abspath (os_dirname (module_source sampleModule))) =
        true) ∧
    ((watch_module envStatNone emptyState sampleModule).2 = .error .osError ∧
    (watch_module envStatNone emptyState sampleModule).1.reloadable_modules =
      emptyState.reloadable_modules ∧
    (getKey (envStatNone.abspath (os_dirname (module_source sampleModule)))
      (watch_module envStatNone emptyState sampleModule).1.dir_fds).isSome ∧
    (emptyState.dir_fds = [] →
      (watch_module envStatNone emptyState sampleModule).1.sigioInstalled = true ∧
      (watch_module envStatNone emptyState sampleModule).1.installCount =
        emptyState.installCount + 1)) :=
  ⟨rfl, Or.inr rfl,
    watch_module_statfail_persists envStatNone emptyState sampleModule rfl (Or.inr rfl)⟩

/-- C1: redefining a class whose identity is already registered sets every
member of the new class body onto the previously stored class object,
creates and stores no new class object, and returns the old object itself,
so references and instances captured before the redefinition resolve
members against the patched old object. -/
theorem redefinition_merges_into_old_object
    (env : Env) (s : PyState) (name module : String) (bases : List Nat) (dict : Dict)
    (oldId : Nat) (oldObj : Obj)
    (hmod : getKey "__module__" dict = some (Value.vstr module))
    (hself : (str_endswith module "reloading" && name == "Reloadable") = false)
    (hreg : getKey (module, name) s.reloadable_classes = some oldId)
    (hobj : getKey oldId s.objects = some oldObj)
    (hnd : (dict.map Prod.fst).Nodup) :
    (metaclass_new env s name bases dict).2 = .ok oldId ∧
    (metaclass_new env s name bases dict).1.nextObjId = s.nextObjId ∧
    (metaclass_new env s name bases dict).1.objects.length = s.objects.length ∧
    (metaclass_new env s name bases dict).1.reloadable_classes = s.reloadable_classes ∧
    (metaclass_new env s name bases dict).1.reloadable_modules = s.reloadable_modules ∧
    (metaclass_new env s name bases dict).1.dir_fds = s.dir_fds ∧
    ∃ o', getKey oldId (metaclass_new env s name bases dict).1.objects = some o' ∧
      o'.cname = oldObj.cname ∧ o'.bases = oldObj.bases ∧
      ∀ k v, getKey k dict = some v → getKey k o'.members = some v := by
  have hred : metaclass_new env s name bases dict =
      (dict.foldl (fun st kv => setattr st oldId kv.1 kv.2) s, .ok oldId) := by
    simp [metaclass_new, hmod, hself, hreg]
  have hfold := foldl_setattr dict s oldId oldObj hobj
  rw [hred, hfold]
  refine ⟨rfl, rfl, ?_, rfl, rfl, rfl, ?_⟩
  · exact length_setKey_isSome oldId _ s.objects (by rw [hobj]; rfl)
  · refine ⟨{ oldObj with
        members := dict.foldl (fun m kv => setKey kv.1 kv.2 m) oldObj.members }, ?_, rfl, rfl, ?_⟩
    · rw [getKey_setKey]
      simp
    · intro k v hk
      exact getKey_foldl_setKey_of_mem dict k v hnd hk oldObj.members

theorem redefinition_merges_into_old_object_witness :
    (getKey "__module__" sampleDict = some (Value.vstr "m")) ∧
    ((str_endswith "m" "reloading" && "Foo" == "Reloadable") = false) ∧
    (getKey ("m", "Foo") regState.reloadable_classes = some 0) ∧
    (getKey 0 regState.objects = some sampleObj) ∧
    ((sampleDict.map Prod.fst).Nodup) ∧
    ((metaclass_new envStat7 regState "Foo" [] sampleDict).2 = .ok 0 ∧
    (metaclass_new envStat7 regState "Foo" [] sampleDict).1.nextObjId = regState.nextObjId ∧
    (metaclass_new envStat7 regState "Foo" [] sampleDict).1.objects.length =
      regState.objects.length ∧
    (metaclass_new envStat7 regState "Foo" [] sampleDict).1.reloadable_classes =
      regState.reloadable_classes ∧
    (metaclass_new envStat7 regState "Foo" [] sampleDict).1.reloadable_modules =
      regState.reloadable_modules ∧
    (metaclass_new envStat7 regState "Foo" [] sampleDict).1.dir_fds = regState.dir_fds ∧
    ∃ o', getKey 0 (metaclass_new envStat7 regState "Foo" [] sampleDict).1.objects = some o' ∧
      o'.cname = sampleObj.cname ∧ o'.bases = sampleObj.bases ∧
      ∀ k v, getKey k sampleDict = some v → getKey k o'.members = some v) :=
  ⟨by decide, by decide, by decide, by decide, by decide,
    redefinition_merges_into_old_object envStat7 regState "Foo" "m" [] sampleDict 0 sampleObj
      (by decide) (by decide) (by decide) (by decide) (by decide)⟩

/-- C2: the merge on redefinition is additive and overwriting only: every
member of the old class object whose name does not appear in the new class
body is left unchanged, and no member is ever deleted. -/
theorem redefinition_never_deletes_members
    (env : Env) (s : PyState) (name module : String) (bases : List Nat) (dict : Dict)
    (oldId : Nat) (oldObj : Obj)
    (hmod : getKey "__module__" dict = some (Value.vstr module))
    (hself : (str_endswith module "reloading" && name == "Reloadable") = false)
    (hreg : getKey (module, name) s.reloadable_classes = some oldId)
    (hobj : getKey oldId s.objects = some oldObj)
    (hnd : (dict.map Prod.fst).Nodup) :
    ∃ o', getKey oldId (metaclass_new env s name bases dict).1.objects = some o' ∧
      (∀ k, getKey k dict = none → getKey k o'.members = getKey k oldObj.members) ∧
      (∀ k, (getKey k oldObj.members).isSome → (getKey k o'.members).isSome) := by
  have hred : metaclass_new env s name bases dict =
      (dict.foldl (fun st kv => setattr st oldId kv.1 kv.2) s, .ok oldId) := by
    simp [metaclass_new, hmod, hself, hreg]
  have hfold := foldl_setattr dict s oldId oldObj hobj
  rw [hred, hfold]
  refine ⟨{ oldObj with
      members := dict.foldl (fun m kv => setKey kv.1 kv.2 m) oldObj.members }, ?_, ?_, ?_⟩
  · rw [getKey_setKey]
    simp
  · intro k hk
    exact getKey_foldl_setKey_of_none dict k hk oldObj.members
  · intro k hk
    cases hd : getKey k dict with
    | none =>
      rw [getKey_foldl_setKey_of_none dict k hd oldObj.members]
      exact hk
    | some v =>
      rw [getKey_foldl_setKey_of_mem dict k v hnd hd oldObj.members]
      rfl

theorem redefinition_never_deletes_members_witness :
    (getKey "__module__" sampleDict = some (Value.vstr "m")) ∧
    ((str_endswith "m" "reloading" && "Foo" == "Reloadable") = false) ∧
    (getKey ("m", "Foo") regState.reloadable_classes = some 0) ∧
    (getKey 0 regState.objects = some sampleObj) ∧
    ((sampleDict.map Prod.fst).Nodup) ∧
    (∃ o', getKey 0 (metaclass_new envStat7 regState "Foo" [] sampleDict).1.objects = some o' ∧
      (∀ k, getKey k sampleDict = none → getKey k o'.members = getKey k sampleObj.members) ∧
      (∀ k, (getKey k sampleObj.members).isSome → (getKey k o'.members).isSome)) :=
  ⟨by decide, by decide, by decide, by decide, by decide,
    redefinition_never_deletes_members envStat7 regState "Foo" "m" [] sampleDict 0 sampleObj
      (by decide) (by decide) (by decide) (by decide) (by decide)⟩

theorem metaclass_new_miss_ok_eq
    (env : Env) (s : PyState) (name module : String) (bases : List Nat) (dict : Dict)
    (mod : Module) (t : Nat)
    (hmod : getKey "__module__" dict = some (Value.vstr module))
    (hself : (str_endswith module "reloading" && name == "Reloadable") = false)
    (hmiss : getKey (module, name) s.reloadable_classes = none)
    (hsys : env.sysModules module = some mod)
    (hstat : env.mtime (module_source mod) = some t)
    (hdir : (getKey (env.abspath (os_dirname (module_source mod))) s.dir_fds).isSome ∨
      env.openOk (env.abspath (os_dirname (module_source mod))) = true) :
    metaclass_new env s name bases dict =
      ({ (watch_dir env (type_new s name bases dict).1 (os_dirname (module_source mod))).1 with
          reloadable_modules :=
            (setKey mod (t, os_dirname (module_source mod))
              (watch_dir env (type_new s name bases dict).1
                (os_dirname (module_source mod))).1.reloadable_modules),
          reloadable_classes :=
            (setKey (module, name) s.nextObjId
              (watch_dir env (type_new s name bases dict).1
                (os_dirname (module_source mod))).1.reloadable_classes) },
       .ok s.nextObjId) := by
  have hdirA : (getKey (env.abspath (os_dirname (module_source mod)))
      (type_new s name bases dict).1.dir_fds).isSome ∨
      env.openOk (env.abspath (os_dirname (module_source mod))) = true := by
    simpa [type_new] using hdir
  have hw := watch_module_ok_eq env (type_new s name bases dict).1 mod t hstat hdirA
  simp only [type_new] at hw
  simp [metaclass_new, hmod, hself, hmiss, hsys, hw, type_new]

/-- C3: a class definition whose identity is not yet registered (and is not
the foundational base type) constructs the class normally, watches the
defining module's directory, records the source's current mtime, stores
the new object under the identity and returns it, adding exactly one
class-identity entry and, when the module was not already watched, exactly
one watched-source entry. -/
theorem first_sighting_registers
    (env : Env) (s : PyState) (name module : String) (bases : List Nat) (dict : Dict)
    (mod : Module) (t : Nat)
    (hmod : getKey "__module__" dict = some (Value.vstr module))
    (hself : (str_endswith module "reloading" && name == "Reloadable") = false)
    (hmiss : getKey (module, name) s.reloadable_classes = none)
    (hsys : env.sysModules module = some mod)
    (hstat : env.mtime (module_source mod) = some t)
    (hdir : (getKey (env.abspath (os_dirname (module_source mod))) s.dir_fds).isSome ∨
      env.openOk (env.abspath (os_dirname (module_source mod))) = true) :
    (metaclass_new env s name bases dict).2 = .ok s.nextObjId ∧
    (metaclass_new env s name bases dict).1.nextObjId = s.nextObjId + 1 ∧
    getKey s.nextObjId (metaclass_new env s name bases dict).1.objects =
      some ⟨name, bases, dict⟩ ∧
    getKey (module, name) (metaclass_new env s name bases dict).1.reloadable_classes =
      some s.nextObjId ∧
    (metaclass_new env s name bases dict).1.reloadable_classes.length =
      s.reloadable_classes.length + 1 ∧
    getKey mod (metaclass_new env s name bases dict).1.reloadable_modules =
      some (t, os_dirname (module_source mod)) ∧
    (getKey mod s.reloadable_modules = none →
      (metaclass_new env s name bases dict).1.reloadable_modules.length =
        s.reloadable_modules.length + 1) ∧
    ((getKey mod s.reloadable_modules).isSome →
      (metaclass_new env s name bases dict).1.reloadable_modules.length =
        s.reloadable_modules.length) ∧
    (getKey (env.abspath (os_dirname (module_source mod)))
      (metaclass_new env s name bases dict).1.dir_fds).isSome ∧
    ((getKey (env.abspath (os_dirname (module_source mod))) s.dir_fds).isSome →
      (metaclass_new env s name bases dict).1.dir_fds = s.dir_fds) ∧
    (getKey (env.abspath (os_dirname (module_source mod))) s.dir_fds = none →
      (metaclass_new env s name bases dict).1.dir_fds.length = s.dir_fds.length + 1) := by
  have hred := metaclass_new_miss_ok_eq env s name module bases dict mod t
    hmod hself hmiss hsys hstat hdir
  have hdirA : (getKey (env.abspath (os_dirname (module_source mod)))
      (type_new s name bases dict).1.dir_fds).isSome ∨
      env.openOk (env.abspath (os_dirname (module_source mod))) = true := by
    simpa [type_new] using hdir
  have hp := watch_dir_preserves env (type_new s name bases dict).1
    (os_dirname (module_source mod))
  have hobs := watch_dir_ok_obs env (type_new s name bases dict).1
    (os_dirname (module_source mod)) hdirA
  have hWc : (watch_dir env (type_new s name bases dict).1
      (os_dirname (module_source mod))).1.reloadable_classes = s.reloadable_classes := by
    simpa [type_new] using hp.1
  have hWm : (watch_dir env (type_new s name bases dict).1
      (os_dirname (module_source mod))).1.reloadable_modules = s.reloadable_modules := by
    simpa [type_new] using hp.2.1
  have hWo : (watch_dir env (type_new s name bases dict).1
      (os_dirname (module_source mod))).1.objects =
      (s.nextObjId, (⟨name, bases, dict⟩ : Obj)) :: s.objects := by
    simpa [type_new] using hp.2.2.1
  have hWn : (watch_dir env (type_new s name bases dict).1
      (os_dirname (module_source mod))).1.nextObjId = s.nextObjId + 1 := by
    simpa [type_new] using hp.2.2.2
  rw [hred]
  refine ⟨rfl, by simpa using hWn, ?_, ?_, ?_, ?_, ?_, ?_, ?_, ?_, ?_⟩
  · simp only []
    rw [hWo]
    simp [getKey]
  · simp only []
    rw [getKey_setKey]
    simp
  · simp only []
    rw [hWc, length_setKey_none _ _ _ hmiss]
  · simp only []
    rw [getKey_setKey]
    simp
  · intro hnone
    simp only []
    rw [hWm, length_setKey_none _ _ _ hnone]
  · intro hsome
    simp only []
    rw [hWm, length_setKey_isSome _ _ _ hsome]
  · simpa using hobs.2.1
  · intro hsome
    have hsA : (getKey (env.abspath (os_dirname (module_source mod)))
        (type_new s name bases dict).1.dir_fds).isSome := by
      simpa [type_new] using hsome
    have heq := hobs.2.2.1 hsA
    simp only []
    rw [heq]
    simp [type_new]
  · intro hnone
    have hsA : getKey (env.abspath (os_dirname (module_source mod)))
        (type_new s name bases dict).1.dir_fds = none := by
      simpa [type_new] using hnone
    have hlen := hobs.2.2.2.1 hsA
    simp only []
    rw [hlen]
    simp [type_new]

theorem first_sighting_registers_witness :
    (getKey "__module__" sampleDict = some (Value.vstr "m")) ∧
    ((str_endswith "m" "reloading" && "Foo" == "Reloadable") = false) ∧
    (getKey ("m", "Foo") emptyState.reloadable_classes = none) ∧
    (envStat7.sysModules "m" = some sampleModule) ∧
    (envStat7.mtime (module_source sampleModule) = some 7) ∧
    ((getKey (envStat7.abspath (os_dirname (module_source sampleModule)))
        emptyState.dir_fds).isSome ∨
      envStat7.openOk (envStat7.abspath (os_dirname (module_source sampleModule))) = true) ∧
    ((metaclass_new envStat7 emptyState "Foo" [] sampleDict).2 = .ok emptyState.nextObjId ∧
    (metaclass_new envStat7 emptyState "Foo" [] sampleDict).1.nextObjId =
      emptyState.nextObjId + 1 ∧
    getKey emptyState.nextObjId (metaclass_new envStat7 emptyState "Foo" [] sampleDict).1.objects =
      some ⟨"Foo", [], sampleDict⟩ ∧
    getKey ("m", "Foo")
      (metaclass_new envStat7 emptyState "Foo" [] sampleDict).1.reloadable_classes =
        some emptyState.nextObjId ∧
    (metaclass_new envStat7 emptyState "Foo" [] sampleDict).1.reloadable_classes.length =
      emptyState.reloadable_classes.length + 1 ∧
    getKey sampleModule
      (metaclass_new envStat7 emptyState "Foo" [] sampleDict).1.reloadable_modules =
        some (7, os_dirname (module_source sampleModule)) ∧
    (getKey sampleModule emptyState.reloadable_modules = none →
      (metaclass_new envStat7 emptyState "Foo" [] sampleDict).1.reloadable_modules.length =
        emptyState.reloadable_modules.length + 1) ∧
    ((getKey sampleModule emptyState.reloadable_modules).isSome →
      (metaclass_new envStat7 emptyState "Foo" [] sampleDict).1.reloadable_modules.length =
        emptyState.reloadable_modules.length) ∧
    (getKey (envStat7.abspath (os_dirname (module_source sampleModule)))
      (metaclass_new envStat7 emptyState "Foo" [] sampleDict).1.dir_fds).isSome ∧
    ((getKey (envStat7.abspath (os_dirname (module_source sampleModule)))
        emptyState.dir_fds).isSome →
      (metaclass_new envStat7 emptyState "Foo" [] sampleDict).1.dir_fds =
        emptyState.dir_fds) ∧
    (getKey (envStat7.abspath (os_dirname (module_source sampleModule)))
        emptyState.dir_fds = none →
      (metaclass_new envStat7 emptyState "Foo" [] sampleDict).1.dir_fds.length =
        emptyState.dir_fds.length + 1)) :=
  ⟨by decide, by decide, by decide, rfl, rfl, Or.inr rfl,
    first_sighting_registers envStat7 emptyState "Foo" "m" [] sampleDict sampleModule 7
      (by decide) (by decide) (by decide) rfl rfl (Or.inr rfl)⟩

theorem metaclass_new_classes_cases (env : Env) (s : PyState) (n : String) (b : List Nat)
    (d : Dict) :
    (metaclass_new env s n b d).1.reloadable_classes = s.reloadable_classes ∨
    ∃ module', getKey (module', n) s.reloadable_classes = none ∧
      (metaclass_new env s n b d).1.reloadable_classes =
        setKey (module', n) s.nextObjId s.reloadable_classes := by
  cases hm : getKey "__module__" d with
  | none => left; simp [metaclass_new, hm]
  | some v =>
    cases v with
    | vnat x => left; simp [metaclass_new, hm]
    | vfun f => left; simp [metaclass_new, hm]
    | vstr module' =>
      cases hb : (str_endswith module' "reloading" && n == "Reloadable") with
      | true => left; simp [metaclass_new, hm, hb, type_new]
      | false =>
        cases hg : getKey (module', n) s.reloadable_classes with
        | some old =>
          left
          have hred : metaclass_new env s n b d =
              (d.foldl (fun st kv => setattr st old kv.1 kv.2) s, .ok old) := by
            simp [metaclass_new, hm, hb, hg]
          rw [hred]
          exact foldl_setattr_reloadable_classes d s old
        | none =>
          cases hsy : env.sysModules module' with
          | none =>
            left
            simp [metaclass_new, hm, hb, hg, hsy, type_new]
          | some mod =>
            rcases hwp : watch_module env (type_new s n b d).1 mod with ⟨s1, r⟩
            have hcl : s1.reloadable_classes = s.reloadable_classes := by
              have hq := (watch_module_preserves env (type_new s n b d).1 mod).1
              rw [hwp] at hq
              simpa [type_new] using hq
            cases r with
            | error e =>
              left
              have hred : metaclass_new env s n b d = (s1, .error e) := by
                simp [metaclass_new, hm, hb, hg, hsy, hwp]
              rw [hred]
              exact hcl
            | ok u =>
              right
              refine ⟨module', hg, ?_⟩
              have hred : metaclass_new env s n b d =
                  ({ s1 with reloadable_classes := (setKey (module', n)
                      (type_new s n b d).2 s1.reloadable_classes) },
                   .ok (type_new s n b d).2) := by
                simp [metaclass_new, hm, hb, hg, hsy, hwp]
              rw [hred]
              simp only [type_new]
              rw [hcl]

/-- C5: once a ClassIdentity is registered it stays registered across every
operation of the subsystem, and every subsequent class definition under
that identity takes the merge self-loop: it returns the stored live object
and leaves the class-identity table unchanged. -/
theorem identity_registration_terminal
    (env : Env) (s : PyState) (module name : String) (c : Nat)
    (hreg : getKey (module, name) s.reloadable_classes = some c) :
    (∀ n b d, getKey (module, name) (metaclass_new env s n b d).1.reloadable_classes =
      some c) ∧
    (∀ n b d, getKey (module, name) (relo_meta_new env s n b d).1.reloadable_classes =
      some c) ∧
    (∀ m, getKey (module, name) (watch_module env s m).1.reloadable_classes = some c) ∧
    (∀ d, getKey (module, name) (watch_dir env s d).1.reloadable_classes = some c) ∧
    getKey (module, name) (handle_sigio env s).state.reloadable_classes = some c ∧
    (∀ b d, getKey "__module__" d = some (Value.vstr module) →
      (str_endswith module "reloading" && name == "Reloadable") = false →
      (metaclass_new env s name b d).2 = .ok c ∧
      (metaclass_new env s name b d).1.reloadable_classes = s.reloadable_classes) := by
  have hmain : ∀ n b d, getKey (module, name)
      (metaclass_new env s n b d).1.reloadable_classes = some c := by
    intro n b d
    rcases metaclass_new_classes_cases env s n b d with h | ⟨module', hnone, heq⟩
    · rw [h]; exact hreg
    · rw [heq, getKey_setKey]
      by_cases hk : (module', n) = (module, name)
      · rw [hk] at hnone
        rw [hnone] at hreg
        exact absurd hreg (by simp)
      · rw [if_neg hk]
        exact hreg
  refine ⟨hmain, ?_, ?_, ?_, ?_, ?_⟩
  · intro n b d
    rw [relo_meta_new_eq]
    exact hmain n b d
  · intro m
    rw [(watch_module_preserves env s m).1]
    exact hreg
  · intro d
    rw [(watch_dir_preserves env s d).1]
    exact hreg
  · rw [(handle_sigio_preserves env s).1]
    exact hreg
  · intro b d hm hb
    have hred : metaclass_new env s name b d =
        (d.foldl (fun st kv => setattr st c kv.1 kv.2) s, .ok c) := by
      simp [metaclass_new, hm, hb, hreg]
    rw [hred]
    exact ⟨rfl, foldl_setattr_reloadable_classes d s c⟩

theorem identity_registration_terminal_witness :
    (getKey ("m", "Foo") regState.reloadable_classes = some 0) ∧
    ((∀ n b d, getKey ("m", "Foo")
        (metaclass_new envStat7 regState n b d).1.reloadable_classes = some 0) ∧
    (∀ n b d, getKey ("m", "Foo")
        (relo_meta_new envStat7 regState n b d).1.reloadable_classes = some 0) ∧
    (∀ m, getKey ("m", "Foo") (watch_module envStat7 regState m).1.reloadable_classes =
      some 0) ∧
    (∀ d, getKey ("m", "Foo") (watch_dir envStat7 regState d).1.reloadable_classes =
      some 0) ∧
    getKey ("m", "Foo") (handle_sigio envStat7 regState).state.reloadable_classes = some 0 ∧
    (∀ b d, getKey "__module__" d = some (Value.vstr "m") →
      (str_endswith "m" "reloading" && "Foo" == "Reloadable") = false →
      (metaclass_new envStat7 regState "Foo" b d).2 = .ok 0 ∧
      (metaclass_new envStat7 regState "Foo" b d).1.reloadable_classes =
        regState.reloadable_classes)) :=
  ⟨by decide, identity_registration_terminal envStat7 regState "m" "Foo" 0 (by decide)⟩

/-- C6: a SIGIO pass re-evaluates a registered source exactly when its
current mtime is strictly greater than the stored baseline, updating the
baseline to the new mtime; an equal mtime leaves the entry untouched, and
a second pass with no intervening modification re-evaluates nothing. -/
theorem sigio_reload_exactness
    (env : Env) (s : PyState)
    (hnd : (s.reloadable_modules.map Prod.fst).Nodup) :
    (handle_sigio env s).reloaded =
        (s.reloadable_modules.filter (entry_reloads env)).map Prod.fst ∧
    (∀ m t d n, getKey m s.reloadable_modules = some (t, d) →
      env.mtime (module_source m) = some n → t < n →
        getKey m (handle_sigio env s).state.reloadable_modules = some (n, d) ∧
        m ∈ (handle_sigio env s).reloaded) ∧
    (∀ m t d, getKey m s.reloadable_modules = some (t, d) →
      env.mtime (module_source m) = some t →
        getKey m (handle_sigio env s).state.reloadable_modules = some (t, d) ∧
        m ∉ (handle_sigio env s).reloaded) ∧
    (handle_sigio env (handle_sigio env s).state).reloaded = [] := by
  have hspec := handle_sigio_spec env s hnd
  rw [hspec]
  refine ⟨rfl, ?_, ?_, ?_⟩
  · intro m t d n hget hmt hlt
    constructor
    · show getKey m (s.reloadable_modules.map (entry_after env)) = some (n, d)
      rw [getKey_map_entry_after, hget]
      simp [entryValue, hmt, hlt]
    · show m ∈ (s.reloadable_modules.filter (entry_reloads env)).map Prod.fst
      have hmem := mem_of_getKey_eq_some hget
      have hrel : entry_reloads env (m, (t, d)) = true := by
        simp [entry_reloads, hmt, hlt]
      exact List.mem_map.mpr ⟨(m, (t, d)), List.mem_filter.mpr ⟨hmem, hrel⟩, rfl⟩
  · intro m t d hget hmt
    constructor
    · show getKey m (s.reloadable_modules.map (entry_after env)) = some (t, d)
      rw [getKey_map_entry_after, hget]
      simp [entryValue, hmt]
    · show m ∉ (s.reloadable_modules.filter (entry_reloads env)).map Prod.fst
      exact not_mem_reloaded_of_false env hnd hget (by simp [entry_reloads, hmt])
  · have hnd2 : ((s.reloadable_modules.map (entry_after env)).map Prod.fst).Nodup := by
      rw [map_fst_map_entry_after]
      exact hnd
    have hspec2 := handle_sigio_spec env
      { s with reloadable_modules := s.reloadable_modules.map (entry_after env) }
      (by simpa using hnd2)
    show (handle_sigio env
      { s with reloadable_modules := s.reloadable_modules.map (entry_after env) }).reloaded = []
    rw [hspec2]
    have hfil : (s.reloadable_modules.map (entry_after env)).filter (entry_reloads env) = [] := by
      rw [List.filter_eq_nil_iff]
      intro a ha
      rcases List.mem_map.mp ha with ⟨e, he, rfl⟩
      simp [entry_reloads_entry_after]
    show ((({ s with reloadable_modules := s.reloadable_modules.map (entry_after env) } :
        PyState).reloadable_modules.filter (entry_reloads env)).map Prod.fst) = []
    simp only []
    rw [hfil]
    rfl

theorem sigio_reload_exactness_witness :
    ((regState.reloadable_modules.map Prod.fst).Nodup) ∧
    ((handle_sigio envStat7 regState).reloaded =
        (regState.reloadable_modules.filter (entry_reloads envStat7)).map Prod.fst ∧
    (∀ m t d n, getKey m regState.reloadable_modules = some (t, d) →
      envStat7.mtime (module_source m) = some n → t < n →
        getKey m (handle_sigio envStat7 regState).state.reloadable_modules = some (n, d) ∧
        m ∈ (handle_sigio envStat7 regState).reloaded) ∧
    (∀ m t d, getKey m regState.reloadable_modules = some (t, d) →
      envStat7.mtime (module_source m) = some t →
        getKey m (handle_sigio envStat7 regState).state.reloadable_modules = some (t, d) ∧
        m ∉ (handle_sigio envStat7 regState).reloaded) ∧
    (handle_sigio envStat7 (handle_sigio envStat7 regState).state).reloaded = []) :=
  ⟨by decide, sigio_reload_exactness envStat7 regState (by decide)⟩

/-- C7: failures during a SIGIO pass are contained per source: a failed stat
skips that source with its baseline unchanged and no error, a raising
re-evaluation is caught and recorded as a printed traceback, and which
re-evaluations raise affects neither the final state nor the set of
re-evaluated sources. -/
theorem sigio_failure_containment
    (env env' : Env) (s : PyState)
    (hnd : (s.reloadable_modules.map Prod.fst).Nodup)
    (hmt : env'.mtime = env.mtime) :
    (handle_sigio env s).tracebacks =
        ((handle_sigio env s).reloaded).filter env.reloadRaises ∧
    (∀ m t d, getKey m s.reloadable_modules = some (t, d) →
      env.mtime (module_source m) = none →
        getKey m (handle_sigio env s).state.reloadable_modules = some (t, d) ∧
        m ∉ (handle_sigio env s).reloaded) ∧
    (handle_sigio env' s).state = (handle_sigio env s).state ∧
    (handle_sigio env' s).reloaded = (handle_sigio env s).reloaded := by
  have h1 : entry_after env' = entry_after env := by
    funext e
    simp [entry_after, entryValue, hmt]
  have h2 : entry_reloads env' = entry_reloads env := by
    funext e
    simp [entry_reloads, hmt]
  rw [handle_sigio_spec env s hnd, handle_sigio_spec env' s hnd, h1, h2]
  refine ⟨rfl, ?_, rfl, rfl⟩
  intro m t d hget hnone
  constructor
  · show getKey m (s.reloadable_modules.map (entry_after env)) = some (t, d)
    rw [getKey_map_entry_after, hget]
    simp [entryValue, hnone]
  · show m ∉ (s.reloadable_modules.filter (entry_reloads env)).map Prod.fst
    exact not_mem_reloaded_of_false env hnd hget (by simp [entry_reloads, hnone])

theorem sigio_failure_containment_witness :
    ((regState.reloadable_modules.map Prod.fst).Nodup) ∧
    (envStat7.mtime = envStat7.mtime) ∧
    ((handle_sigio envStat7 regState).tracebacks =
        ((handle_sigio envStat7 regState).reloaded).filter envStat7.reloadRaises ∧
    (∀ m t d, getKey m regState.reloadable_modules = some (t, d) →
      envStat7.mtime (module_source m) = none →
        getKey m (handle_sigio envStat7 regState).state.reloadable_modules = some (t, d) ∧
        m ∉ (handle_sigio envStat7 regState).reloaded) ∧
    (handle_sigio envStat7 regState).state = (handle_sigio envStat7 regState).state ∧
    (handle_sigio envStat7 regState).reloaded = (handle_sigio envStat7 regState).reloaded) :=
  ⟨by decide, rfl, sigio_failure_containment envStat7 envStat7 regState (by decide) rfl⟩

end Reloading
